import Mathlib

set_option maxHeartbeats 1000000

attribute [local semireducible] Rat.add Rat.mul Rat.sub Rat.inv

deriving instance DecidableEq for Except

namespace GSSValidate

/-! Shallow embedding of the GSS exploratory-data-analysis notebook:
the Stata dictionary parser (`ReadStataDct` / `FixedWidthVariables`),
the fixed-width reader (`ReadFixedWidth`, which delegates to the
pandas fixed-width line slicer), the sentinel cleaning step
(`replace_invalid`), and the weighted per-year resampler
(`resample_by_weight`, modelled from the spec because `utils.resample_by_year`
is imported from a module whose source is not in the repository). -/

/-- Semantic type of a dictionary column: the notebook maps Stata type
tokens to the Python types `int`, `float` and `str`. -/
inductive VType where
  | integer
  | real
  | text
deriving DecidableEq

/-- Failures of the dictionary parser: an unrecognized type token
(a `KeyError` on `type_map` in the notebook, called `UnknownTypeError`
by the spec), a marker line with too few tokens (the Python three-way
unpacking of `t[1:4]` raises `ValueError`), or a `_column` argument that
is not an integer (Python `int()` raises `ValueError`). -/
inductive DctError where
  | unknownType (tok : String)
  | tooFewTokens
  | badStart (s : String)
deriving DecidableEq

/-- One parsed dictionary row: the tuple
`(start, vtype, name, fstring, long_desc)` appended to `var_info`. -/
structure VarInfo where
  start : Int
  vtype : VType
  name : String
  fstring : String
  desc : String
deriving DecidableEq

/-- Strip whitespace (space, tab, carriage return, newline) from both
ends of a character list, as Python `str.strip()` and the pandas
fixed-width field delimiter both do. -/
def stripWs (s : List Char) : List Char :=
  ((s.dropWhile Char.isWhitespace).reverse.dropWhile Char.isWhitespace).reverse

/-- The rest of the line after the first occurrence of `_column(`,
or `none` when the marker is absent. -/
def afterMarker : List Char → Option (List Char)
  | [] => none
  | c :: cs =>
    if List.isPrefixOf ("_column(".toList) (c :: cs) then some ((c :: cs).drop 8)
    else afterMarker cs

/-- The characters before the first `)`, or `none` when there is no `)`. -/
def beforeParen : List Char → Option (List Char)
  | [] => none
  | c :: cs => if c = ')' then some [] else (beforeParen cs).map (fun g => c :: g)

/-- The group captured by `re.search(r'_column\(([^)]*)\)', line)`:
the text after the first occurrence of `_column(` up to the first
following `)`, or `none` when the pattern does not match. -/
def findMarkerGroup (line : List Char) : Option (List Char) :=
  (afterMarker line).bind beforeParen

/-- Helper for `splitWs`: `acc` holds the reversed characters of the
word being accumulated. -/
def splitWsAux : List Char → List Char → List (List Char)
  | [], acc => if acc = [] then [] else [acc.reverse]
  | c :: cs, acc =>
    if c.isWhitespace then
      if acc = [] then splitWsAux cs [] else acc.reverse :: splitWsAux cs []
    else splitWsAux cs (c :: acc)

/-- Python `line.split()`: split on whitespace runs, dropping empty pieces. -/
def splitWs (line : List Char) : List (List Char) :=
  splitWsAux line []

/-- Python `int(s)` on the captured group: surrounding whitespace is
stripped, an optional sign is allowed, and the remainder must be a
nonempty digit string. -/
def parseIntChars (l : List Char) : Option Int :=
  match stripWs l with
  | [] => none
  | c :: cs =>
    if c = '-' then
      if cs ≠ [] ∧ cs.all (fun d => d.isDigit) then
        some (-(cs.foldl (fun n d => 10 * n + ((d.toNat : Int) - 48)) 0))
      else none
    else if c = '+' then
      if cs ≠ [] ∧ cs.all (fun d => d.isDigit) then
        some (cs.foldl (fun n d => 10 * n + ((d.toNat : Int) - 48)) 0)
      else none
    else
      if (c :: cs).all (fun d => d.isDigit) then
        some ((c :: cs).foldl (fun n d => 10 * n + ((d.toNat : Int) - 48)) 0)
      else none

/-- The notebook's type mapping: `vtype.startswith('str')` yields `str`,
otherwise `type_map = dict(byte=int, int=int, long=int, float=float,
double=float, numeric=float)` is consulted; a token absent from the map
raises (modelled as `DctError.unknownType`). -/
def mapVType (tok : List Char) : Except DctError VType :=
  if List.isPrefixOf ("str".toList) tok then .ok .text
  else if tok = "byte".toList ∨ tok = "int".toList ∨ tok = "long".toList then .ok .integer
  else if tok = "float".toList ∨ tok = "double".toList ∨ tok = "numeric".toList then .ok .real
  else .error (.unknownType (String.mk tok))

/-- Python `s.strip('"')`: remove every leading and trailing
double-quote character (code point 34). -/
def stripQuotes (s : List Char) : List Char :=
  ((s.dropWhile (fun c => c = Char.ofNat 34)).reverse.dropWhile
    (fun c => c = Char.ofNat 34)).reverse

/-- Python `' '.join(ws)`. -/
def joinSpaces : List (List Char) → List Char
  | [] => []
  | [w] => w
  | w :: ws => w ++ ' ' :: joinSpaces ws

/-- Parse one dictionary line, following the notebook's loop body:
lines without the `_column(...)` marker are skipped (`.ok none`);
otherwise `start = int(match.group(1))`, the line is whitespace-split,
`vtype, name, fstring = t[1:4]` (fewer than four tokens raises), the
name is lowercased, the type token is mapped, and the description is
`' '.join(t[4:]).strip('"')`. -/
def parseLine (line : String) : Except DctError (Option VarInfo) :=
  match findMarkerGroup line.toList with
  | none => .ok none
  | some g =>
    match parseIntChars g with
    | none => .error (.badStart (String.mk g))
    | some start =>
      match splitWs line.toList with
      | _ :: vt :: nm :: fs :: rest =>
        match mapVType vt with
        | .error e => .error e
        | .ok ty =>
          .ok (some ⟨start, ty, String.mk (nm.map Char.toLower), String.mk fs,
            String.mk (stripQuotes (joinSpaces rest))⟩)
      | _ => .error .tooFewTokens

/-- Fold `parseLine` over the file's lines, keeping parsed rows in file
order; the first failing line aborts the parse. -/
def parseLines : List String → Except DctError (List VarInfo)
  | [] => .ok []
  | l :: ls =>
    match parseLine l with
    | .error e => .error e
    | .ok none => parseLines ls
    | .ok (some v) =>
      match parseLines ls with
      | .error e => .error e
      | .ok vs => .ok (v :: vs)

/-- The end-column assignment of `ReadStataDct`:
`variables['end'] = variables.start.shift(-1)` gives each row the next
row's start, and `variables.loc[len(variables)-1, 'end'] = 0` sets the
last row's end to the sentinel 0 ("read to end of record").
The empty-dictionary case never arises for a parsed file and is mapped
to the empty list. -/
def assignEnds : List VarInfo → List (VarInfo × Int)
  | [] => []
  | [v] => [(v, 0)]
  | v :: w :: rest => (v, w.start) :: assignEnds (w :: rest)

/-- The state built by `FixedWidthVariables.__init__`: the `(start, end)`
pairs after subtracting `index_base`, and the column names. -/
structure FixedWidthVariables where
  colspecs : List (Int × Int)
  names : List String
deriving DecidableEq

/-- `self.colspecs = variables[['start', 'end']] - index_base`:
subtract `index_base` from both the start and the end of every column,
including the final sentinel end. -/
def mkColspecs (specs : List (VarInfo × Int)) (index_base : Int) : List (Int × Int) :=
  specs.map (fun p => (p.1.start - index_base, p.2 - index_base))

/-- `ReadStataDct`: parse the lines, assign end columns by shifting, and
build a `FixedWidthVariables` with `index_base = 1`. -/
def ReadStataDct (lines : List String) : Except DctError FixedWidthVariables :=
  match parseLines lines with
  | .error e => .error e
  | .ok infos => .ok ⟨mkColspecs (assignEnds infos) 1, infos.map (fun v => v.name)⟩

/-- Python slice `s[a:b]` on a list of characters, with negative-index
normalization and clamping, as used by the pandas fixed-width reader on
each line. -/
def pySlice (s : List Char) (a b : Int) : List Char :=
  (s.take (if b < 0 then (max ((s.length : Int) + b) 0).toNat else (min b (s.length : Int)).toNat)).drop
    (if a < 0 then (max ((s.length : Int) + a) 0).toNat else (min a (s.length : Int)).toNat)

/-- One row as produced by `pd.read_fwf` with explicit `colspecs`:
each column is the Python slice `line[start:end]` stripped of
surrounding whitespace; an empty field is the missing value `NaN`
(modelled as `none`).  Slicing never fails: a short line yields empty
or truncated fields, not an error. -/
def readRow (colspecs : List (Int × Int)) (line : String) : List (Option String) :=
  colspecs.map (fun p =>
    match stripWs (pySlice line.toList p.1 p.2) with
    | [] => none
    | f => some (String.mk f))

/-- `FixedWidthVariables.ReadFixedWidth`, which delegates to
`pd.read_fwf(filename, colspecs=self.colspecs, names=self.names)`:
one output row per input line. -/
def ReadFixedWidth (fwv : FixedWidthVariables) (lines : List String) :
    List (List (Option String)) :=
  lines.map (readRow fwv.colspecs)

/-- A cell of the record table: either the missing marker `NaN` or a
numeric value. -/
inductive Val where
  | na : Val
  | num : ℚ → Val
deriving DecidableEq

/-- The columns named by `replace_invalid`. -/
def sentinelColumns : List String := ["realinc", "educ", "age", "cohort", "adults"]

/-- The sentinel codes of `replace_invalid`: `realinc` 0, `educ` 98 and 99,
`age` 98 and 99, `cohort` 9999, `adults` 9; every other column has no
sentinel codes. -/
def sentinelCodes (c : String) : List ℚ :=
  if c = "realinc" then [0]
  else if c = "educ" then [98, 99]
  else if c = "age" then [98, 99]
  else if c = "cohort" then [9999]
  else if c = "adults" then [9]
  else []

/-- `df[col].replace(codes, np.nan)` on one cell: a value equal to one of
the codes becomes `NaN`; every other cell, including `NaN`, is unchanged. -/
def replaceVal (codes : List ℚ) : Val → Val
  | .na => .na
  | .num q => if q ∈ codes then .na else .num q

/-- `replace_invalid(df)`: replace each named column's sentinel codes with
`NaN`.  The table is a list of (column name, cells); columns outside the
five named ones have an empty code list, so mapping them is the identity,
matching the notebook's touching only the five attributes. -/
def replace_invalid (df : List (String × List Val)) : List (String × List Val) :=
  df.map (fun p => (p.1, p.2.map (replaceVal (sentinelCodes p.1))))

/-- Modelled from the spec: the error raised by the resampler
(`utils.resample_by_year` is not in the repository source) when a
stratum is empty or has zero total weight; it carries the stratum
identifier as §7 of the spec requires. -/
structure DegenerateStratumError where
  stratum : Int
deriving DecidableEq

/-- Modelled from the spec: inverse-CDF selection for one weighted draw.
Given the per-row probabilities and a uniform variate `u` in `[0, 1)`,
return the first index whose cumulative probability exceeds `u`. -/
def pickIndex (ps : List ℚ) (u : ℚ) : Nat :=
  match ps with
  | [] => 0
  | p :: rest => if u < p then 0 else pickIndex rest (u - p) + 1

/-- Modelled from the spec: resample one stratum (§4.4 steps 2-4).
Fails with `DegenerateStratumError` if the subset is empty or its total
weight is zero; otherwise normalizes the weights to probabilities and
draws, with replacement, as many row indices as the subset has rows,
consuming the random stream `rand` from offset `off` row-by-row. -/
def resampleStratum {α : Type} [Inhabited α] (stratum : Int) (sub : List α)
    (wt : α → ℚ) (rand : Nat → ℚ) (off : Nat) :
    Except DegenerateStratumError (List α) :=
  if sub.isEmpty ∨ (sub.map wt).sum = 0 then
    .error ⟨stratum⟩
  else
    .ok ((List.range sub.length).map (fun i =>
      sub.getD (pickIndex (sub.map (fun r => wt r / (sub.map wt).sum)) (rand (off + i))) default))

/-- Modelled from the spec: iterate over the strata in order, select each
stratum's row subset, resample it, and concatenate the contributions;
draws are consumed in stratum-iteration order. -/
def resampleGo {α : Type} [Inhabited α] (rows : List α) (wt : α → ℚ) (key : α → Int)
    (rand : Nat → ℚ) : List Int → Nat → Except DegenerateStratumError (List α)
  | [], _ => .ok []
  | k :: ks, off =>
    match resampleStratum k (rows.filter (fun r => key r = k)) wt rand off with
    | .error e => .error e
    | .ok s =>
      match resampleGo rows wt key rand ks (off + (rows.filter (fun r => key r = k)).length) with
      | .error e => .error e
      | .ok rest => .ok (s ++ rest)

/-- Helper for `firstSeen`: `seen` holds the keys already emitted. -/
def firstSeenAux : List Int → List Int → List Int
  | [], _ => []
  | k :: ks, seen =>
    if k ∈ seen then firstSeenAux ks seen else k :: firstSeenAux ks (k :: seen)

/-- The distinct keys of a list in order of first appearance. -/
def firstSeen (l : List Int) : List Int :=
  firstSeenAux l []

/-- Modelled from the spec: `resample_by_weight(table, weight_column,
strata_column)` (§4.4), the contract implemented by
`utils.resample_by_year` called with weight column `wtssall` and strata
column `year`.  Strata are processed in order of first appearance in the
input and their contributions concatenated. -/
def resample_by_weight {α : Type} [Inhabited α] (rows : List α) (wt : α → ℚ)
    (key : α → Int) (rand : Nat → ℚ) : Except DegenerateStratumError (List α) :=
  resampleGo rows wt key rand (firstSeen (rows.map key)) 0

/-! Helper lemmas. -/

theorem replaceVal_idem (codes : List ℚ) (v : Val) :
    replaceVal codes (replaceVal codes v) = replaceVal codes v := by
  cases v with
  | na => rfl
  | num q =>
    by_cases h : q ∈ codes <;> simp [replaceVal, h]

theorem map_replaceVal_idem (codes : List ℚ) (col : List Val) :
    (col.map (replaceVal codes)).map (replaceVal codes) = col.map (replaceVal codes) := by
  rw [List.map_map]
  exact List.map_congr_left (fun v _ => replaceVal_idem codes v)

theorem sentinelCodes_eq_nil (name : String) (h : ¬ name ∈ sentinelColumns) :
    sentinelCodes name = [] := by
  simp only [sentinelColumns, List.mem_cons, List.not_mem_nil, or_false, not_or] at h
  obtain ⟨h1, h2, h3, h4, h5⟩ := h
  simp [sentinelCodes, h1, h2, h3, h4, h5]

theorem replaceVal_nil_codes (v : Val) : replaceVal [] v = v := by
  cases v <;> simp [replaceVal]

/-! Claim theorems for sentinel cleaning. -/

/-- C7: sentinel cleaning is idempotent: for every record table,
applying `replace_invalid` twice yields the same table as applying it
once. -/
theorem replace_invalid_idempotent (df : List (String × List Val)) :
    replace_invalid (replace_invalid df) = replace_invalid df := by
  unfold replace_invalid
  rw [List.map_map]
  exact List.map_congr_left (fun p _ => by
    simp only [Function.comp_apply]
    rw [map_replaceVal_idem])

/-- C8: `replace_invalid` replaces only the listed sentinel codes in
their named columns (`realinc` 0; `educ` 98, 99; `age` 98, 99; `cohort`
9999; `adults` 9) with the missing marker: column names and order are
preserved, a column outside the five named ones is left unchanged, a
value that is not a sentinel code for its column is left unchanged
(including the legitimate top-coded age value 89), and a sentinel code
becomes the missing marker. -/
theorem replace_invalid_frame (df : List (String × List Val)) :
    ((replace_invalid df).map Prod.fst = df.map Prod.fst) ∧
    (∀ p ∈ df, (p.1, p.2.map (replaceVal (sentinelCodes p.1))) ∈ replace_invalid df) ∧
    (∀ name : String, ¬ name ∈ sentinelColumns →
      ∀ col : List Val, col.map (replaceVal (sentinelCodes name)) = col) ∧
    (∀ (name : String) (q : ℚ), ¬ q ∈ sentinelCodes name →
      replaceVal (sentinelCodes name) (.num q) = .num q) ∧
    (∀ (name : String) (q : ℚ), q ∈ sentinelCodes name →
      replaceVal (sentinelCodes name) (.num q) = .na) ∧
    (replaceVal (sentinelCodes "age") (.num 89) = .num 89) := by
  refine ⟨?_, ?_, ?_, ?_, ?_, ?_⟩
  · unfold replace_invalid
    rw [List.map_map]
    rfl
  · intro p hp
    exact List.mem_map_of_mem _ hp
  · intro name hname col
    rw [sentinelCodes_eq_nil name hname]
    exact List.map_congr_left (fun v _ => replaceVal_nil_codes v) |>.trans (List.map_id col)
  · intro name q hq
    simp [replaceVal, hq]
  · intro name q hq
    simp [replaceVal, hq]
  · decide

/-- C8 witness: the frame property applied to a concrete two-column
table; the age value 89 survives, the age sentinel 99 is replaced, and
the `sex` column is untouched. -/
theorem replace_invalid_frame_witness :
    ((replace_invalid [("age", [Val.num 89, Val.num 99]), ("sex", [Val.num 9])]).map Prod.fst
        = [("age", [Val.num 89, Val.num 99]), ("sex", [Val.num 9])].map Prod.fst) ∧
    (∀ col : List Val, col.map (replaceVal (sentinelCodes "sex")) = col) ∧
    (replaceVal (sentinelCodes "age") (.num 89) = .num 89) ∧
    (replaceVal (sentinelCodes "age") (.num 99) = .na) := by
  refine ⟨(replace_invalid_frame [("age", [Val.num 89, Val.num 99]), ("sex", [Val.num 9])]).1,
    fun col => (replace_invalid_frame []).2.2.1 "sex" (by decide) col,
    (replace_invalid_frame []).2.2.2.2.2,
    (replace_invalid_frame []).2.2.2.2.1 "age" 99 (by decide)⟩

/-! Claim theorems for the dictionary type mapping and line shape. -/

/-- C5: the type-token mapping of `ReadStataDct`: a token beginning with
`str` maps to text; `byte`, `int`, `long` map to integer; `float`,
`double`, `numeric` map to real; any other token fails with the
unknown-type error. -/
theorem mapVType_spec :
    (∀ tok : List Char, List.isPrefixOf ("str".toList) tok = true → mapVType tok = .ok .text) ∧
    (mapVType ("byte".toList) = .ok .integer) ∧
    (mapVType ("int".toList) = .ok .integer) ∧
    (mapVType ("long".toList) = .ok .integer) ∧
    (mapVType ("float".toList) = .ok .real) ∧
    (mapVType ("double".toList) = .ok .real) ∧
    (mapVType ("numeric".toList) = .ok .real) ∧
    (∀ tok : List Char, List.isPrefixOf ("str".toList) tok = false →
      ¬ tok = "byte".toList → ¬ tok = "int".toList → ¬ tok = "long".toList →
      ¬ tok = "float".toList → ¬ tok = "double".toList → ¬ tok = "numeric".toList →
      mapVType tok = .error (.unknownType (String.mk tok))) := by
  refine ⟨?_, by decide, by decide, by decide, by decide, by decide, by decide, ?_⟩
  · intro tok h
    unfold mapVType
    rw [if_pos h]
  · intro tok h h1 h2 h3 h4 h5 h6
    unfold mapVType
    rw [if_neg (by rw [h]; exact Bool.false_ne_true),
      if_neg (by rintro (hc | hc | hc) <;> [exact h1 hc; exact h2 hc; exact h3 hc]),
      if_neg (by rintro (hc | hc | hc) <;> [exact h4 hc; exact h5 hc; exact h6 hc])]

/-- C5 witness: the mapping evaluated at a `str` token and at an
unrecognized token. -/
theorem mapVType_spec_witness :
    mapVType ("str12".toList) = .ok .text ∧
    mapVType ("weird".toList) = .error (.unknownType "weird") := by
  refine ⟨mapVType_spec.1 ("str12".toList) (by decide), ?_⟩
  have h := mapVType_spec.2.2.2.2.2.2.2 ("weird".toList) (by decide)
    (by decide) (by decide) (by decide) (by decide) (by decide) (by decide)
  exact h

/-- C10: a line containing the `_column(<int>)` marker must have at
least four whitespace-separated tokens; with fewer tokens `parseLine`
fails (the three-way unpacking has nothing to bind) instead of the line
being skipped the way marker-free lines are. -/
theorem parseLine_marker_token_arity (line : String) :
    (findMarkerGroup line.toList = none → parseLine line = .ok none) ∧
    (∀ (g : List Char) (s : Int), findMarkerGroup line.toList = some g →
      parseIntChars g = some s → (splitWs line.toList).length < 4 →
      parseLine line = .error .tooFewTokens) := by
  constructor
  · intro h
    have h' : findMarkerGroup line.data = none := h
    simp [parseLine, h']
  · intro g s hg hs hlen
    have hg' : findMarkerGroup line.data = some g := hg
    rcases ht : splitWs line.data with _ | ⟨a, _ | ⟨b, _ | ⟨c, _ | ⟨d, rest⟩⟩⟩⟩
    · simp [parseLine, hg', hs, ht]
    · simp [parseLine, hg', hs, ht]
    · simp [parseLine, hg', hs, ht]
    · simp [parseLine, hg', hs, ht]
    · have hlen' : (splitWs line.data).length < 4 := hlen
      rw [ht] at hlen'
      simp only [List.length_cons] at hlen'
      omega

/-- C10 witness: the marker-free line `5001  records` is skipped, while
the marker line `_column(2)` with a single token fails. -/
theorem parseLine_marker_token_arity_witness :
    parseLine "5001  records" = .ok none ∧
    parseLine "_column(2)" = .error .tooFewTokens := by
  refine ⟨(parseLine_marker_token_arity "5001  records").1 (by decide), ?_⟩
  exact (parseLine_marker_token_arity "_column(2)").2 ['2'] 2 (by decide) (by decide) (by decide)

/-! Helper lemmas on the end-column assignment. -/

theorem assignEnds_length (l : List VarInfo) : (assignEnds l).length = l.length := by
  induction l using assignEnds.induct with
  | case1 => rfl
  | case2 v => rfl
  | case3 v w rest ih => simp only [assignEnds, List.length_cons, ih]

theorem assignEnds_ne_nil (l : List VarInfo) (h : l ≠ []) : assignEnds l ≠ [] := by
  cases l with
  | nil => exact absurd rfl h
  | cons v rest => cases rest <;> simp [assignEnds]

theorem assignEnds_get_zero_fst (v : VarInfo) (rest : List VarInfo)
    (h : 0 < (assignEnds (v :: rest)).length) :
    ((assignEnds (v :: rest)).get ⟨0, h⟩).1 = v := by
  cases rest <;> rfl

theorem assignEnds_adjacent (l : List VarInfo) :
    ∀ (i : Nat) (h : i + 1 < (assignEnds l).length),
      ((assignEnds l).get ⟨i, Nat.lt_of_succ_lt h⟩).2 =
        ((assignEnds l).get ⟨i + 1, h⟩).1.start := by
  induction l using assignEnds.induct with
  | case1 =>
    intro i h
    rw [assignEnds_length] at h
    simp at h
  | case2 v =>
    intro i h
    rw [assignEnds_length] at h
    simp only [List.length_cons, List.length_nil] at h
    omega
  | case3 v w rest ih =>
    intro i h
    cases i with
    | zero =>
      show w.start = ((assignEnds (w :: rest)).get ⟨0, _⟩).1.start
      rw [assignEnds_get_zero_fst]
    | succ j =>
      show ((assignEnds (w :: rest)).get ⟨j, _⟩).2 =
        ((assignEnds (w :: rest)).get ⟨j + 1, _⟩).1.start
      exact ih j _

theorem assignEnds_getLast (l : List VarInfo) (h : l ≠ []) (h2 : assignEnds l ≠ []) :
    ((assignEnds l).getLast h2).2 = 0 := by
  induction l using assignEnds.induct with
  | case1 => exact absurd rfl h
  | case2 v => rfl
  | case3 v w rest ih =>
    have hne : assignEnds (w :: rest) ≠ [] := assignEnds_ne_nil _ (by simp)
    show (((v, w.start) :: assignEnds (w :: rest)).getLast h2).2 = 0
    rw [List.getLast_cons hne]
    exact ih (by simp) hne

theorem mkColspecs_length (specs : List (VarInfo × Int)) (ib : Int) :
    (mkColspecs specs ib).length = specs.length := by
  simp [mkColspecs]

theorem mkColspecs_getLast (specs : List (VarInfo × Int)) (ib : Int) (h : specs ≠ [])
    (h2 : mkColspecs specs ib ≠ []) :
    ((mkColspecs specs ib).getLast h2).2 = (specs.getLast h).2 - ib := by
  unfold mkColspecs at h2 ⊢
  rw [List.getLast_map _ _ h2]

/-! Claim theorems for the offset structure of parsed dictionaries. -/

/-- C4: for every parsed dictionary, the produced offsets form a
contiguous gapless partition: each column's end offset (derived by
shifting the start column) equals the next column's start offset, and
the final column's raw end marker is the sentinel 0 meaning read to end
of record. -/
theorem dictionary_offsets_partition (lines : List String) (infos : List VarInfo)
    (hparse : parseLines lines = .ok infos) :
    (∀ (i : Nat) (h : i + 1 < (assignEnds infos).length),
      ((assignEnds infos).get ⟨i, Nat.lt_of_succ_lt h⟩).2 =
        ((assignEnds infos).get ⟨i + 1, h⟩).1.start) ∧
    (∀ h : assignEnds infos ≠ [], ((assignEnds infos).getLast h).2 = 0) := by
  refine ⟨assignEnds_adjacent infos, ?_⟩
  intro h
  refine assignEnds_getLast infos ?_ h
  intro hnil
  rw [hnil] at h
  exact h rfl

/-- C4 witness: a two-column dictionary where the first column's end is
the second column's start and the last raw end marker is 0. -/
theorem dictionary_offsets_partition_witness :
    parseLines ["_column(1) int year %4f", "_column(5) byte sex %1f"] =
      .ok [⟨1, .integer, "year", "%4f", ""⟩, ⟨5, .integer, "sex", "%1f", ""⟩] ∧
    ((assignEnds [⟨1, .integer, "year", "%4f", ""⟩, ⟨5, .integer, "sex", "%1f", ""⟩]).get
      ⟨0, by decide⟩).2 =
      ((assignEnds [⟨1, .integer, "year", "%4f", ""⟩, ⟨5, .integer, "sex", "%1f", ""⟩]).get
        ⟨1, by decide⟩).1.start ∧
    ((assignEnds [⟨1, .integer, "year", "%4f", ""⟩,
      ⟨5, .integer, "sex", "%1f", ""⟩]).getLast (by decide)).2 = 0 := by
  refine ⟨by decide, ?_, ?_⟩
  · exact (dictionary_offsets_partition ["_column(1) int year %4f", "_column(5) byte sex %1f"]
      [⟨1, .integer, "year", "%4f", ""⟩, ⟨5, .integer, "sex", "%1f", ""⟩] (by decide)).1 0
      (by decide)
  · exact (dictionary_offsets_partition ["_column(1) int year %4f", "_column(5) byte sex %1f"]
      [⟨1, .integer, "year", "%4f", ""⟩, ⟨5, .integer, "sex", "%1f", ""⟩] (by decide)).2
      (by decide)

/-- C9: the `FixedWidthVariables` constructor subtracts `index_base = 1`
from both the start and the end column of every parsed dictionary entry,
including the final raw end sentinel 0; hence the stored colspecs list's
last pair always has end -1, not the documented sentinel 0. -/
theorem colspecs_last_end_is_neg_one (lines : List String) (fwv : FixedWidthVariables)
    (hok : ReadStataDct lines = .ok fwv) :
    (∀ infos : List VarInfo, parseLines lines = .ok infos →
      fwv.colspecs = (assignEnds infos).map (fun p => (p.1.start - 1, p.2 - 1))) ∧
    (∀ h : fwv.colspecs ≠ [], (fwv.colspecs.getLast h).2 = -1) := by
  unfold ReadStataDct at hok
  cases hp : parseLines lines with
  | error e =>
    rw [hp] at hok
    cases hok
  | ok infos =>
    rw [hp] at hok
    injection hok with hfw
    subst hfw
    constructor
    · intro infos' hp'
      injection hp' with he
      subst he
      rfl
    · intro h
      have hspecs : assignEnds infos ≠ [] := by
        intro hnil
        apply h
        show mkColspecs (assignEnds infos) 1 = []
        rw [hnil]
        rfl
      have hinfos : infos ≠ [] := by
        intro hnil
        apply hspecs
        rw [hnil]
        rfl
      show ((mkColspecs (assignEnds infos) 1).getLast h).2 = -1
      rw [mkColspecs_getLast (assignEnds infos) 1 hspecs h,
        assignEnds_getLast infos hinfos hspecs]
      decide

/-- C9 witness: for a concrete two-column dictionary the stored colspecs
are the 1-based offsets shifted down by one and the last pair ends
in -1. -/
theorem colspecs_last_end_is_neg_one_witness :
    ReadStataDct ["_column(1) int year %4f", "_column(5) byte sex %1f"] =
      .ok ⟨[(0, 4), (4, -1)], ["year", "sex"]⟩ ∧
    (([(0, 4), (4, -1)] : List (Int × Int)).getLast (by decide)).2 = -1 := by
  refine ⟨by decide, ?_⟩
  exact (colspecs_last_end_is_neg_one ["_column(1) int year %4f", "_column(5) byte sex %1f"]
    ⟨[(0, 4), (4, -1)], ["year", "sex"]⟩ (by decide)).2 (by decide)

/-! Claim theorems for short data lines in the fixed-width reader. -/

theorem pySlice_out_of_range (s : List Char) (a b : Int) (ha : 0 ≤ a)
    (hlen : (s.length : Int) ≤ a) : pySlice s a b = [] := by
  unfold pySlice
  rw [if_neg (not_lt.mpr ha), min_eq_right hlen]
  apply List.drop_eq_nil_of_le
  rw [Int.toNat_natCast]
  rw [List.length_take]
  exact min_le_right _ _

/-- C6 counterexample: the claim says a data line shorter than the
maximum column end offset makes `ReadFixedWidth` fail with
`MalformedRecordError`; on the code (which delegates to the pandas
fixed-width slicer) the 4-character line `1972` read under colspecs
requiring end offset 5 is not rejected: a normal row is produced, the
out-of-range column read as missing, and the reader's type has no
failure channel at all. -/
theorem read_fixed_width_no_error_counterexample :
    ReadFixedWidth ⟨[(0, 4), (4, 5)], ["year", "sex"]⟩ ["1972"] = [[some "1972", none]] := by
  decide

/-- C6 amended: a data line shorter than the maximum column end offset
does not cause a failure: the reader still yields one row per line with
one field per column, and a column whose start offset lies at or beyond
the line's length is read as the missing value; no `MalformedRecordError`
exists in the code. -/
theorem read_fixed_width_short_line (fwv : FixedWidthVariables) (lines : List String)
    (line : String) (i : Nat) :
    (ReadFixedWidth fwv lines).length = lines.length ∧
    (readRow fwv.colspecs line).length = fwv.colspecs.length ∧
    (∀ a b : Int, fwv.colspecs[i]? = some (a, b) → 0 ≤ a →
      (line.toList.length : Int) ≤ a →
      (readRow fwv.colspecs line)[i]? = some none) := by
  refine ⟨by simp [ReadFixedWidth], by simp [readRow], ?_⟩
  intro a b hspec ha hlen
  unfold readRow
  rw [List.getElem?_map, hspec]
  have hnil : pySlice line.toList a b = [] := pySlice_out_of_range _ _ _ ha hlen
  simp only [Option.map_some']
  rw [hnil]
  rfl

/-- C6 amended witness: the short line `1972` under colspecs `(0,4)`,
`(4,5)` yields a row whose second field is missing. -/
theorem read_fixed_width_short_line_witness :
    ((0 : Int) ≤ 4) ∧ (("1972".toList.length : Int) ≤ 4) ∧
    (readRow [(0, 4), (4, 5)] "1972")[1]? = some none := by
  refine ⟨by decide, by decide, ?_⟩
  exact (read_fixed_width_short_line ⟨[(0, 4), (4, 5)], ["year", "sex"]⟩ ["1972"] "1972" 1).2.2
    4 5 (by decide) (by decide) (by decide)

/-! Helper lemmas on first-appearance stratum order. -/

theorem firstSeenAux_cons (k : Int) (ks seen : List Int) :
    firstSeenAux (k :: ks) seen =
      if k ∈ seen then firstSeenAux ks seen else k :: firstSeenAux ks (k :: seen) := rfl

theorem mem_firstSeenAux (l : List Int) : ∀ (seen : List Int) (a : Int),
    a ∈ firstSeenAux l seen ↔ (a ∈ l ∧ ¬ a ∈ seen) := by
  induction l with
  | nil =>
    intro seen a
    simp [firstSeenAux]
  | cons k ks ih =>
    intro seen a
    by_cases hk : k ∈ seen
    · rw [firstSeenAux_cons, if_pos hk, ih seen a]
      constructor
      · rintro ⟨h1, h2⟩
        exact ⟨List.mem_cons_of_mem _ h1, h2⟩
      · rintro ⟨h1, h2⟩
        rcases List.mem_cons.mp h1 with heq | hmem
        · subst heq
          exact absurd hk h2
        · exact ⟨hmem, h2⟩
    · rw [firstSeenAux_cons, if_neg hk, List.mem_cons, ih (k :: seen) a]
      constructor
      · rintro (heq | ⟨h1, h2⟩)
        · subst heq
          exact ⟨List.mem_cons_self _ _, hk⟩
        · exact ⟨List.mem_cons_of_mem _ h1, fun hc => h2 (List.mem_cons_of_mem _ hc)⟩
      · rintro ⟨h1, h2⟩
        rcases List.mem_cons.mp h1 with heq | hmem
        · exact Or.inl heq
        · by_cases hak : a = k
          · exact Or.inl hak
          · refine Or.inr ⟨hmem, fun hc => ?_⟩
            rcases List.mem_cons.mp hc with h3 | h3
            · exact hak h3
            · exact h2 h3

theorem nodup_firstSeenAux (l : List Int) : ∀ seen : List Int, (firstSeenAux l seen).Nodup := by
  induction l with
  | nil =>
    intro seen
    simp [firstSeenAux]
  | cons k ks ih =>
    intro seen
    by_cases hk : k ∈ seen
    · rw [firstSeenAux_cons, if_pos hk]
      exact ih seen
    · rw [firstSeenAux_cons, if_neg hk]
      refine List.nodup_cons.mpr ⟨?_, ih (k :: seen)⟩
      intro hc
      exact ((mem_firstSeenAux ks (k :: seen) k).mp hc).2 (List.mem_cons_self k _)

theorem mem_firstSeen (a : Int) (l : List Int) : a ∈ firstSeen l ↔ a ∈ l := by
  unfold firstSeen
  rw [mem_firstSeenAux l [] a]
  simp

theorem nodup_firstSeen (l : List Int) : (firstSeen l).Nodup :=
  nodup_firstSeenAux l []

/-! Helper lemmas on the weighted draw. -/

theorem pickIndex_lt (ps : List ℚ) : ∀ u : ℚ, 0 ≤ u → u < ps.sum →
    pickIndex ps u < ps.length := by
  induction ps with
  | nil =>
    intro u h0 hlt
    rw [List.sum_nil] at hlt
    exact absurd (lt_of_le_of_lt h0 hlt) (lt_irrefl 0)
  | cons p rest ih =>
    intro u h0 hlt
    unfold pickIndex
    by_cases hu : u < p
    · rw [if_pos hu]
      exact Nat.succ_pos _
    · rw [if_neg hu]
      rw [List.length_cons]
      refine Nat.succ_lt_succ (ih (u - p) ?_ ?_)
      · exact sub_nonneg.mpr (not_lt.mp hu)
      · rw [List.sum_cons] at hlt
        exact sub_lt_iff_lt_add'.mpr hlt

theorem sum_map_div_self {α : Type} (sub : List α) (wt : α → ℚ)
    (h : (sub.map wt).sum ≠ 0) :
    (sub.map (fun r => wt r / (sub.map wt).sum)).sum = 1 := by
  simp only [div_eq_mul_inv]
  rw [List.sum_map_mul_right sub wt ((sub.map wt).sum)⁻¹]
  exact mul_inv_cancel₀ h

theorem resampleStratum_error_zero {α : Type} [inst : Inhabited α] (stratum : Int)
    (sub : List α) (wt : α → ℚ) (rand : Nat → ℚ) (off : Nat)
    (h : (sub.map wt).sum = 0) :
    resampleStratum stratum sub wt rand off = .error ⟨stratum⟩ := by
  unfold resampleStratum
  rw [if_pos (Or.inr h)]

theorem resampleGo_error_of_zero {α : Type} [inst : Inhabited α] (rows : List α)
    (wt : α → ℚ) (key : α → Int) (rand : Nat → ℚ) :
    ∀ (ks : List Int) (off : Nat) (k : Int), k ∈ ks →
    ((rows.filter (fun r => key r = k)).map wt).sum = 0 →
    ∃ e, resampleGo rows wt key rand ks off = .error e := by
  intro ks
  induction ks with
  | nil =>
    intro off k hk
    exact absurd hk (List.not_mem_nil k)
  | cons k0 ks ih =>
    intro off k hk hz
    rcases List.mem_cons.mp hk with heq | hmem
    · subst heq
      refine ⟨⟨k⟩, ?_⟩
      unfold resampleGo
      rw [resampleStratum_error_zero k _ wt rand off hz]
    · cases hst : resampleStratum k0 (rows.filter (fun r => key r = k0)) wt rand off with
      | error e =>
        refine ⟨e, ?_⟩
        unfold resampleGo
        rw [hst]
      | ok s =>
        obtain ⟨e, hgo⟩ := ih (off + (rows.filter (fun r => key r = k0)).length) k hmem hz
        refine ⟨e, ?_⟩
        unfold resampleGo
        rw [hst, hgo]

/-! Claim theorems for degenerate and singleton strata. -/

/-- C2: a stratum whose selected row subset is empty, or whose total
weight is zero, makes the resampler fail with `DegenerateStratumError`
rather than return an empty or NaN-weighted result. -/
theorem degenerate_stratum_errors :
    (∀ (α : Type) [inst : Inhabited α] (wt : α → ℚ) (rand : Nat → ℚ)
      (stratum : Int) (off : Nat),
      resampleStratum stratum ([] : List α) wt rand off = .error ⟨stratum⟩) ∧
    (∀ (α : Type) [inst : Inhabited α] (rows : List α) (wt : α → ℚ) (key : α → Int)
      (rand : Nat → ℚ) (k : Int), k ∈ rows.map key →
      ((rows.filter (fun r => key r = k)).map wt).sum = 0 →
      ∃ e, resample_by_weight rows wt key rand = .error e) := by
  constructor
  · intro α inst wt rand stratum off
    rfl
  · intro α inst rows wt key rand k hk hz
    exact resampleGo_error_of_zero rows wt key rand (firstSeen (rows.map key)) 0 k
      ((mem_firstSeen k (rows.map key)).mpr hk) hz

/-- C2 witness: the empty stratum fails, and a one-row table whose only
row has weight zero makes the whole resampler fail. -/
theorem degenerate_stratum_errors_witness :
    resampleStratum 7 ([] : List Int) (fun _ => (1 : ℚ)) (fun _ => 0) 0 = .error ⟨7⟩ ∧
    (∃ e, resample_by_weight [(3 : Int)] (fun _ => (0 : ℚ)) (fun r => r) (fun _ => 0)
      = .error e) := by
  constructor
  · exact degenerate_stratum_errors.1 Int (fun _ => (1 : ℚ)) (fun _ => 0) 7 0
  · exact degenerate_stratum_errors.2 Int [(3 : Int)] (fun _ => (0 : ℚ)) (fun r => r)
      (fun _ => 0) 3 (by decide) (by decide)

/-- C3: a stratum holding exactly one row of positive weight resamples,
for any seed, to exactly one copy of that row: every replacement draw
selects index 0. -/
theorem single_row_stratum_resamples_itself (α : Type) [inst : Inhabited α] (r : α)
    (wt : α → ℚ) (rand : Nat → ℚ) (stratum : Int) (off : Nat)
    (hw : 0 < wt r) (hr : ∀ n, 0 ≤ rand n ∧ rand n < 1) :
    resampleStratum stratum [r] wt rand off = .ok [r] ∧
    (∀ u : ℚ, 0 ≤ u → u < 1 →
      pickIndex ([r].map (fun x => wt x / ([r].map wt).sum)) u = 0) := by
  have hsum : ([r].map wt).sum = wt r := by simp
  have hne : wt r ≠ 0 := ne_of_gt hw
  have hps : [r].map (fun x => wt x / ([r].map wt).sum) = [1] := by
    rw [List.map_cons, List.map_nil, hsum, div_self hne]
  have hpick : ∀ u : ℚ, u < 1 → pickIndex [1] u = 0 := by
    intro u h1
    unfold pickIndex
    rw [if_pos h1]
  constructor
  · unfold resampleStratum
    rw [if_neg (by
      rintro (hc | hc)
      · exact absurd hc (by simp)
      · exact hne (hsum ▸ hc))]
    rw [show List.range ([r].length) = [0] from rfl, List.map_cons, List.map_nil, hps,
      hpick (rand (off + 0)) (hr (off + 0)).2]
    rfl
  · intro u hu0 hu1
    rw [hps]
    exact hpick u hu1

/-- C3 witness: a singleton stratum of weight 1 resamples to itself and
the draw at `u = 0` selects index 0. -/
theorem single_row_stratum_resamples_itself_witness :
    resampleStratum 0 [(42 : Int)] (fun _ => (1 : ℚ)) (fun _ => 0) 0 = .ok [42] ∧
    pickIndex ([(42 : Int)].map (fun x => (fun _ : Int => (1 : ℚ)) x /
      ([(42 : Int)].map (fun _ : Int => (1 : ℚ))).sum)) 0 = 0 := by
  have h := single_row_stratum_resamples_itself Int 42 (fun _ => (1 : ℚ)) (fun _ => 0) 0 0
    (by decide) (fun n => ⟨le_refl 0, by simp⟩)
  exact ⟨h.1, h.2 0 (by decide) (by decide)⟩

/-! Helper lemmas for the row-count preservation of the resampler. -/

theorem resampleStratum_ok_spec {α : Type} [inst : Inhabited α] (stratum : Int)
    (sub : List α) (wt : α → ℚ) (rand : Nat → ℚ) (off : Nat) (out : List α)
    (hr : ∀ n, 0 ≤ rand n ∧ rand n < 1)
    (hok : resampleStratum stratum sub wt rand off = .ok out) :
    out.length = sub.length ∧ ∀ x ∈ out, x ∈ sub := by
  unfold resampleStratum at hok
  split at hok
  · cases hok
  · rename_i hcond
    injection hok with hout
    subst hout
    have hsum : (sub.map wt).sum ≠ 0 := fun hc => hcond (Or.inr hc)
    constructor
    · rw [List.length_map, List.length_range]
    · intro x hx
      rw [List.mem_map] at hx
      obtain ⟨i, hi, hxi⟩ := hx
      subst hxi
      have hlt : pickIndex (sub.map (fun r => wt r / (sub.map wt).sum)) (rand (off + i)) <
          sub.length := by
        have h1 := pickIndex_lt (sub.map (fun r => wt r / (sub.map wt).sum)) (rand (off + i))
          (hr (off + i)).1 (by
            rw [sum_map_div_self sub wt hsum]
            exact (hr (off + i)).2)
        rw [List.length_map] at h1
        exact h1
      rw [List.getD_eq_getElem sub default hlt]
      exact List.getElem_mem hlt

theorem resampleGo_cons {α : Type} [inst : Inhabited α] (rows : List α) (wt : α → ℚ)
    (key : α → Int) (rand : Nat → ℚ) (k0 : Int) (ks : List Int) (off : Nat) :
    resampleGo rows wt key rand (k0 :: ks) off =
      match resampleStratum k0 (rows.filter (fun r => key r = k0)) wt rand off with
      | .error e => .error e
      | .ok s =>
        match resampleGo rows wt key rand ks
          (off + (rows.filter (fun r => key r = k0)).length) with
        | .error e => .error e
        | .ok rest => .ok (s ++ rest) := rfl

theorem resampleGo_ok_spec {α : Type} [inst : Inhabited α] (rows : List α) (wt : α → ℚ)
    (key : α → Int) (rand : Nat → ℚ) (hr : ∀ n, 0 ≤ rand n ∧ rand n < 1) :
    ∀ (ks : List Int) (off : Nat) (out : List α),
    resampleGo rows wt key rand ks off = .ok out →
    out.length = (ks.map (fun k => (rows.filter (fun r => key r = k)).length)).sum ∧
    (∀ x ∈ out, key x ∈ ks ∧ x ∈ rows) ∧
    (ks.Nodup → ∀ k : Int, (out.filter (fun r => key r = k)).length =
      if k ∈ ks then (rows.filter (fun r => key r = k)).length else 0) ∧
    out.map key = (ks.map (fun k =>
      List.replicate ((rows.filter (fun r => key r = k)).length) k)).flatten := by
  intro ks
  induction ks with
  | nil =>
    intro off out hok
    rw [show resampleGo rows wt key rand [] off = .ok [] from rfl] at hok
    injection hok with h
    subst h
    refine ⟨rfl, by simp, ?_, rfl⟩
    intro _ k
    simp
  | cons k0 ks ih =>
    intro off out hok
    rw [resampleGo_cons] at hok
    cases hst : resampleStratum k0 (rows.filter (fun r => key r = k0)) wt rand off with
    | error e =>
      rw [hst] at hok
      cases hok
    | ok s =>
      rw [hst] at hok
      cases hgo : resampleGo rows wt key rand ks
          (off + (rows.filter (fun r => key r = k0)).length) with
      | error e =>
        rw [hgo] at hok
        cases hok
      | ok rest =>
        rw [hgo] at hok
        injection hok with h
        subst h
        obtain ⟨hslen, hsmem⟩ := resampleStratum_ok_spec k0 _ wt rand off s hr hst
        obtain ⟨ih1, ih2, ih3, ih4⟩ := ih _ rest hgo
        have hkey : ∀ x ∈ s, key x = k0 := fun x hx =>
          of_decide_eq_true (List.mem_filter.mp (hsmem x hx)).2
        have hsrows : ∀ x ∈ s, x ∈ rows := fun x hx =>
          List.mem_of_mem_filter (hsmem x hx)
        refine ⟨?_, ?_, ?_, ?_⟩
        · rw [List.length_append, hslen, List.map_cons, List.sum_cons, ih1]
        · intro x hx
          rcases List.mem_append.mp hx with hx | hx
          · exact ⟨by rw [hkey x hx]; exact List.mem_cons_self _ _, hsrows x hx⟩
          · obtain ⟨h1, h2⟩ := ih2 x hx
            exact ⟨List.mem_cons_of_mem _ h1, h2⟩
        · intro hnd k
          have hk0 : ¬ k0 ∈ ks := (List.nodup_cons.mp hnd).1
          have hnd2 : ks.Nodup := (List.nodup_cons.mp hnd).2
          rw [List.filter_append, List.length_append]
          by_cases hk : k = k0
          · subst hk
            have hs_all : s.filter (fun r => key r = k) = s :=
              List.filter_eq_self.mpr (fun x hx => decide_eq_true (hkey x hx))
            have hrest_nil : rest.filter (fun r => key r = k) = [] :=
              List.filter_eq_nil_iff.mpr (fun x hx hc =>
                hk0 (of_decide_eq_true hc ▸ (ih2 x hx).1))
            rw [hs_all, hrest_nil, hslen, if_pos (List.mem_cons_self k ks)]
            rfl
          · have hs_nil : s.filter (fun r => key r = k) = [] :=
              List.filter_eq_nil_iff.mpr (fun x hx hc =>
                hk (by rw [← of_decide_eq_true hc, hkey x hx]))
            rw [hs_nil, ih3 hnd2 k]
            by_cases hmem : k ∈ ks
            · rw [if_pos hmem, if_pos (List.mem_cons_of_mem _ hmem)]
              simp
            · rw [if_neg hmem, if_neg (fun hc => by
                rcases List.mem_cons.mp hc with h | h
                · exact hk h
                · exact hmem h)]
              simp
        · rw [List.map_append, List.map_cons, List.flatten_cons, ih4]
          congr 1
          refine List.eq_replicate_iff.mpr ⟨by rw [List.length_map, hslen], ?_⟩
          intro b hb
          rw [List.mem_map] at hb
          obtain ⟨x, hx, hbx⟩ := hb
          rw [← hbx]
          exact hkey x hx

theorem sum_map_add_nat (ks : List Int) (f g : Int → Nat) :
    (ks.map (fun k => f k + g k)).sum = (ks.map f).sum + (ks.map g).sum := by
  induction ks with
  | nil => rfl
  | cons k ks ih =>
    rw [List.map_cons, List.sum_cons, ih, List.map_cons, List.sum_cons,
      List.map_cons, List.sum_cons]
    omega

theorem sum_indicator_zero (ks : List Int) (a : Int) (ha : ¬ a ∈ ks) :
    (ks.map (fun k => if a = k then 1 else 0)).sum = 0 := by
  induction ks with
  | nil => rfl
  | cons k ks ih =>
    have h1 : ¬ a = k := fun hc => ha (by rw [hc]; exact List.mem_cons_self k ks)
    have h2 : ¬ a ∈ ks := fun hc => ha (List.mem_cons_of_mem _ hc)
    rw [List.map_cons, List.sum_cons, if_neg h1, ih h2]

theorem sum_indicator_one (ks : List Int) (a : Int) (hnd : ks.Nodup) (ha : a ∈ ks) :
    (ks.map (fun k => if a = k then 1 else 0)).sum = 1 := by
  induction ks with
  | nil => cases ha
  | cons k ks ih =>
    rcases List.mem_cons.mp ha with heq | hmem
    · have h2 : ¬ a ∈ ks := by
        rw [heq]
        exact (List.nodup_cons.mp hnd).1
      rw [List.map_cons, List.sum_cons, if_pos heq, sum_indicator_zero ks a h2]
    · have h1 : ¬ a = k := fun hc => (List.nodup_cons.mp hnd).1 (hc ▸ hmem)
      rw [List.map_cons, List.sum_cons, if_neg h1, ih (List.nodup_cons.mp hnd).2 hmem]

theorem length_eq_sum_counts {α : Type} (key : α → Int) (ks : List Int) (hnd : ks.Nodup) :
    ∀ rows : List α, (∀ r ∈ rows, key r ∈ ks) →
    (ks.map (fun k => (rows.filter (fun r => key r = k)).length)).sum = rows.length := by
  intro rows
  induction rows with
  | nil =>
    intro _
    simp
  | cons r rest ih =>
    intro hcov
    have hcov2 : ∀ x ∈ rest, key x ∈ ks := fun x hx => hcov x (List.mem_cons_of_mem _ hx)
    have hrk : key r ∈ ks := hcov r (List.mem_cons_self _ _)
    have hpoint : ∀ k : Int, ((r :: rest).filter (fun x => key x = k)).length =
        (if key r = k then 1 else 0) + (rest.filter (fun x => key x = k)).length := by
      intro k
      rw [List.filter_cons]
      by_cases hcase : key r = k
      · rw [if_pos (decide_eq_true hcase), if_pos hcase, List.length_cons]
        omega
      · rw [if_neg (fun hc => hcase (of_decide_eq_true hc)), if_neg hcase]
        omega
    rw [List.map_congr_left (fun k _ => hpoint k), sum_map_add_nat,
      sum_indicator_one ks (key r) hnd hrk, ih hcov2, List.length_cons]
    omega

theorem filter_eq_nil_of_not_mem_map {α : Type} (key : α → Int) (rows : List α) (k : Int)
    (h : ¬ k ∈ rows.map key) : rows.filter (fun r => key r = k) = [] :=
  List.filter_eq_nil_iff.mpr (fun x hx hc =>
    h (List.mem_map.mpr ⟨x, hx, of_decide_eq_true hc⟩))

/-! Claim theorem for row-count preservation of the resampler. -/

/-- C1: for every input table with a non-negative weight column,
`resample_by_weight` returns a table with the same number of rows per
stratum as the input subset for that stratum and the same total row
count overall, with the strata's contributions concatenated in the
order each stratum first appears in the input. -/
theorem resample_preserves_strata (α : Type) [inst : Inhabited α] (rows : List α)
    (wt : α → ℚ) (key : α → Int) (rand : Nat → ℚ) (out : List α)
    (hr : ∀ n, 0 ≤ rand n ∧ rand n < 1)
    (hw : ∀ r ∈ rows, 0 ≤ wt r)
    (hok : resample_by_weight rows wt key rand = .ok out) :
    out.length = rows.length ∧
    (∀ k : Int, (out.filter (fun r => key r = k)).length =
      (rows.filter (fun r => key r = k)).length) ∧
    out.map key = ((firstSeen (rows.map key)).map (fun k =>
      List.replicate ((rows.filter (fun r => key r = k)).length) k)).flatten := by
  obtain ⟨h1, h2, h3, h4⟩ := resampleGo_ok_spec rows wt key rand hr
    (firstSeen (rows.map key)) 0 out hok
  have hnd := nodup_firstSeen (rows.map key)
  refine ⟨?_, ?_, h4⟩
  · rw [h1]
    exact length_eq_sum_counts key (firstSeen (rows.map key)) hnd rows
      (fun r hrr => (mem_firstSeen _ _).mpr (List.mem_map_of_mem key hrr))
  · intro k
    by_cases hk : k ∈ firstSeen (rows.map key)
    · rw [h3 hnd k, if_pos hk]
    · rw [h3 hnd k, if_neg hk,
        filter_eq_nil_of_not_mem_map key rows k (fun hc => hk ((mem_firstSeen _ _).mpr hc))]
      rfl

/-- C1 witness: a three-row table with two strata (years 5 and 7),
unit weights and the constant random stream 1/2 resamples to three rows
whose stratum labels are the input's strata in first-seen order with the
input's per-stratum multiplicities. -/
theorem resample_preserves_strata_witness :
    resample_by_weight [(5 : Int), 5, 7] (fun _ => (1 : ℚ)) (fun r => r)
      (fun _ => (1 : ℚ)/2) = .ok [5, 5, 7] ∧
    ([(5 : Int), 5, 7].map (fun r => r) =
      ((firstSeen ([(5 : Int), 5, 7].map (fun r => r))).map (fun k =>
        List.replicate (([(5 : Int), 5, 7].filter (fun r => r = k)).length) k)).flatten) := by
  refine ⟨by decide, ?_⟩
  exact (resample_preserves_strata Int [(5 : Int), 5, 7] (fun _ => (1 : ℚ)) (fun r => r)
    (fun _ => (1 : ℚ)/2) [5, 5, 7] (fun n => ⟨le_of_lt one_half_pos, one_half_lt_one⟩)
    (fun r hrr => zero_le_one) (by decide)).2.2

end GSSValidate
